import Mathlib

/-!
Verification of core components of the ParseVideos chat-bot backend against
its natural-language specification.  Each Lean definition is a shallow
embedding of one Python function of the repository, translated from the
source file named in its doc comment; the theorems settle the frozen claims
about those functions.
-/

namespace FileCache

/-! Embedding of `src/TelegramBot/file_cache.py`.  The in-memory cache is the
module-level dict `_cache`; Python dicts preserve insertion order, so the
cache is modelled as an association list.  The on-disk side of `save` is
modelled as a trace of primitive filesystem operations applied to a small
disk model. -/

/-- A cache `value` / `file_id` is either a single string, a list of strings
(album galleries), or the placeholder empty dict that `_normalize_entry({})`
receives from `put` for a fresh key. -/
inductive CacheValue where
  | str (s : String)
  | list (l : List String)
  | emptyDict
deriving DecidableEq, Repr

/-- One in-memory entry, the shape produced by `_normalize_entry`:
`{"title": …, "value": …, "reply": …, "parse_mode": …}`.  The `reply`
field stores the serialized inline-keyboard row matrix. -/
structure Entry where
  title : String
  value : CacheValue
  reply : Option (List (List String))
  parse_mode : Option String
deriving DecidableEq, Repr

/-- The module constant `_DEFAULT_TITLE = ""`. -/
def DEFAULT_TITLE : String := ""

/-- Raw JSON shapes `_normalize_entry` can receive: a dict containing a
`"value"` key (new format, with the other keys optional), or anything else
(legacy bare string / list, or the empty dict passed by `put`). -/
inductive RawEntry where
  | full (title : Option String) (value : CacheValue)
      (reply : Option (List (List String))) (parse_mode : Option String)
  | bare (v : CacheValue)
deriving DecidableEq, Repr

/-- Embedding of `_normalize_entry(raw)`: upgrade a raw entry to the full record shape,
with empty title, null reply and null parse_mode as defaults. -/
def normalize_entry : RawEntry → Entry
  | .full t v r p =>
      { title := t.getD DEFAULT_TITLE, value := v, reply := r, parse_mode := p }
  | .bare v =>
      { title := DEFAULT_TITLE, value := v, reply := none, parse_mode := none }

/-- The in-memory `_cache` dict, insertion-ordered. -/
abbrev Cache := List (String × Entry)

/-- Dict lookup `_cache.get(key)` (here returning the whole entry, as
`get_full` does). -/
def cacheGet (c : Cache) (k : String) : Option Entry :=
  (c.find? (fun p => p.1 == k)).map (fun p => p.2)

/-- The in-place field update `put` performs on the entry returned by
`_cache.setdefault(key, _normalize_entry({}))`:
`value` is always overwritten; `reply` and `parse_mode` keep their old value
when the argument is `None`; `title` is assigned only when not `None`. -/
def putEntryUpdate (e : Entry) (file_id : CacheValue) (title : Option String)
    (reply : Option (List (List String))) (parse_mode : Option String) : Entry :=
  { e with
    value := file_id
    reply := if reply.isSome then reply else e.reply
    parse_mode := if parse_mode.isSome then parse_mode else e.parse_mode
    title := match title with | some t => t | none => e.title }

/-- The in-memory effect of `put(key, file_id, title=…, reply=…,
parse_mode=…)` (the subsequent `save()` is modelled separately below). -/
def put (c : Cache) (key : String) (file_id : CacheValue) (title : Option String)
    (reply : Option (List (List String))) (parse_mode : Option String) : Cache :=
  if (cacheGet c key).isSome then
    c.map (fun p =>
      if p.1 == key then (p.1, putEntryUpdate p.2 file_id title reply parse_mode) else p)
  else
    c ++ [(key, putEntryUpdate (normalize_entry (.bare .emptyDict)) file_id title reply parse_mode)]

/-- The in-memory effect of `delete(key)` together with its boolean result:
pops the key and returns `true` when present, otherwise leaves the cache
untouched and returns `false`. -/
def delete (c : Cache) (k : String) : Cache × Bool :=
  if (cacheGet c k).isSome then (c.filter (fun p => p.1 != k), true) else (c, false)

/-- A tiny concrete JSON-ish serialization of the map, standing for
`json.dumps(_cache, ensure_ascii=False, indent=2)`; only the fact that the
whole current map is serialized matters to the claims. -/
def serializeValue : CacheValue → String
  | .str s => "\"" ++ s ++ "\""
  | .list l => "[" ++ String.intercalate ", " (l.map (fun s => "\"" ++ s ++ "\"")) ++ "]"
  | .emptyDict => "\x7b\x7d"

def serializeEntry (e : Entry) : String :=
  "\x7b\"title\": \"" ++ e.title ++ "\", \"value\": " ++ serializeValue e.value ++ "\x7d"

def serializeCache (c : Cache) : String :=
  "\x7b" ++ String.intercalate ", " (c.map (fun p => "\"" ++ p.1 ++ "\": " ++ serializeEntry p.2)) ++ "\x7d"

/-- Primitive filesystem operations the persistence code performs. -/
inductive FsOp where
  | writeTempFsync (name : String) (data : String)
  | rename (src : String) (dst : String)
deriving DecidableEq, Repr

/-- The on-disk cache file, `CACHE_FILE = Path(__file__).with_name("file_id_cache.json")`. -/
def CACHE_FILE : String := "file_id_cache.json"

/-- Operation trace of `_atomic_write(data)`: write `data` to a fresh
`tempfile.NamedTemporaryFile` (name `tmp`) in the cache directory, flush and
fsync it, then `os.replace` it onto the cache file.  No other file is
touched. -/
def atomic_write_ops (tmp : String) (data : String) : List FsOp :=
  [FsOp.writeTempFsync tmp data, FsOp.rename tmp CACHE_FILE]

/-- Operation trace of `save()`: a single `_atomic_write` of the serialized
map (`tmp` is the random temp-file name chosen by `NamedTemporaryFile`). -/
def save_ops (c : Cache) (tmp : String) : List FsOp :=
  atomic_write_ops tmp (serializeCache c)

/-- Operation trace triggered by `put`: `put` mutates the map and then always
calls `save()`. -/
def put_save_ops (c : Cache) (key : String) (file_id : CacheValue)
    (title : Option String) (reply : Option (List (List String)))
    (parse_mode : Option String) (tmp : String) : List FsOp :=
  save_ops (put c key file_id title reply parse_mode) tmp

/-- Operation trace triggered by `delete`: `save()` runs only when the key
was present; deleting an absent key returns `False` without saving. -/
def delete_save_ops (c : Cache) (k : String) (tmp : String) : List FsOp :=
  if (cacheGet c k).isSome then save_ops (delete c k).1 tmp else []

/-- The cache directory on disk: file name ↦ contents. -/
abbrev Disk := List (String × String)

def diskGet (d : Disk) (n : String) : Option String :=
  (d.find? (fun p => p.1 == n)).map (fun p => p.2)

def diskSet (d : Disk) (n v : String) : Disk :=
  (n, v) :: d.filter (fun p => p.1 != n)

def diskRemove (d : Disk) (n : String) : Disk :=
  d.filter (fun p => p.1 != n)

/-- Semantics of one filesystem operation.  `os.replace` overwrites the
destination atomically; in the traces above the source always exists, so the
degenerate missing-source case (which would raise in Python) is a no-op. -/
def applyOp (d : Disk) : FsOp → Disk
  | .writeTempFsync n data => diskSet d n data
  | .rename src dst =>
      match diskGet d src with
      | some v => diskSet (diskRemove d src) dst v
      | none => d

def runOps (d : Disk) (ops : List FsOp) : Disk :=
  ops.foldl applyOp d

/-- The backup file name the specification speaks of. -/
def BACKUP_FILE : String := "cache_backup.json"

/-- Modelled from the spec wording of the claim (for comparison with
`save_ops` only): serialize to `cache_tmp.json`, fsync it, rename
`cache.json` to `cache_backup.json` if it exists, then rename
`cache_tmp.json` to `cache.json`. -/
def claimed_save_protocol (c : Cache) (d : Disk) : List FsOp :=
  [FsOp.writeTempFsync "cache_tmp.json" (serializeCache c)]
    ++ (if (diskGet d CACHE_FILE).isSome then [FsOp.rename CACHE_FILE BACKUP_FILE] else [])
    ++ [FsOp.rename "cache_tmp.json" CACHE_FILE]

end FileCache

namespace RateLimiterM

/-! Embedding of `src/TelegramBot/rate_limiter.py`.  Timestamps (Python
`time.time()` floats) are modelled as rationals. -/

/-- The limiter's state: `_min_interval` and the dict `_last_sent`
(`uid ↦ last emit time`). -/
structure State where
  min_interval : ℚ
  last_sent : List (ℕ × ℚ)
deriving DecidableEq, Repr

/-- The lookup `self._last_sent.get(user_id, 0.0)`. -/
def getLast (s : State) (uid : ℕ) : ℚ :=
  ((s.last_sent.find? (fun p => p.1 == uid)).map (fun p => p.2)).getD 0

/-- The gate `allow(user_id)` at wall-clock time `now`: reject (returning the state
unchanged) when `now - last < min_interval`, otherwise record `now` and
admit. -/
def allow (s : State) (uid : ℕ) (now : ℚ) : Bool × State :=
  if now - getLast s uid < s.min_interval then (false, s)
  else (true, { s with last_sent := (uid, now) :: s.last_sent.filter (fun p => p.1 != uid) })

/-- The results of a sequence of `allow(uid)` calls at the given times. -/
def runCalls (s : State) (uid : ℕ) : List ℚ → List Bool
  | [] => []
  | t :: ts =>
      let r := allow s uid t
      r.1 :: runCalls r.2 uid ts

end RateLimiterM

namespace Recorder

/-! Embedding of the record-building part of
`src/TelegramBot/recorder_parse.py` (`_record_user_parse`). -/

/-- Rounding to two decimals, standing for Python `round(x, 2)`; ties, which
Python resolves to even on floats, play no role in any claim. -/
def round2 (q : ℚ) : ℚ := (round (q * 100) : ℤ) / 100

/-- The `work_time_s` computation: absent start time gives null; a negative
duration is stored as `0.0`; a duration above 3600 s is stored as null
(`None`); anything else is rounded to two decimals. -/
def work_time_s (start_time : Option ℚ) (now : ℚ) : Option ℚ :=
  match start_time with
  | none => none
  | some st =>
      let raw := now - st
      if raw < 0 then some 0
      else if raw > 3600 then none
      else some (round2 raw)

/-- The fields of `UserParseResult` that `_record_user_parse` consults. -/
structure ParseInfo where
  uid : ℕ
  vid : Option String
  success : Bool
  fid : List (String × String)
  start_time : Option ℚ
deriving DecidableEq, Repr

/-- The claim-relevant fields of the `UserRecordEntry` that gets appended.
The cache-hit record shape carries no `vid`/`url` keys, so `vid` defaults to
`None` there. -/
structure RecordEntry where
  uid : ℕ
  vid : Option String
  is_cached_hit : Bool
  parse_success : Bool
  work_time : Option ℚ
deriving DecidableEq, Repr

/-- Record construction in `_record_user_parse`: a request counts as a cache
hit exactly when `info.fid` is non-empty, and the two branches build the
hit-shaped or full record accordingly. -/
def buildRecord (info : ParseInfo) (now : ℚ) : RecordEntry :=
  let wt := work_time_s info.start_time now
  if info.fid.isEmpty then
    { uid := info.uid, vid := info.vid, is_cached_hit := false,
      parse_success := info.success, work_time := wt }
  else
    { uid := info.uid, vid := none, is_cached_hit := true,
      parse_success := info.success, work_time := wt }

/-- The `user_stats.json` contents: uid ↦ its list of records. -/
abbrev StatsData := List (ℕ × List RecordEntry)

def getRecords (d : StatsData) (uid : ℕ) : List RecordEntry :=
  ((d.find? (fun p => p.1 == uid)).map (fun p => p.2)).getD []

def setRecords (d : StatsData) (uid : ℕ) (rs : List RecordEntry) : StatsData :=
  (uid, rs) :: d.filter (fun p => p.1 != uid)

/-- The in-memory effect of `_record_user_parse(info)` on the loaded stats:
the record is appended unconditionally — the duplicate-suppression block
(`if not is_cached_hit: … skip …`) is commented out in the source, under the
comment that every initiated parse is recorded whether it hit or not. -/
def record_user_parse (d : StatsData) (info : ParseInfo) (now : ℚ) : StatsData :=
  setRecords d info.uid (getRecords d info.uid ++ [buildRecord info now])

end Recorder

namespace GenericHandler

/-! Embedding of `src/TelegramBot/handlers/generic_handler.py`:
the driver skeleton `generic_command_handler` (cache-hit branch, the
parse-onward phase abstracted by its net outcome, the outer `except` and the
`finally`), and the image-gallery branch of `_upload_and_send`. -/

/-- The constant `IMAGES_CACHE_SWITCH` from `src/TelegramBot/config.py`. -/
def IMAGES_CACHE_SWITCH : Bool := false

/-- Python string truthiness for optional strings: `None` and `""` are falsy. -/
def truthyStr : Option String → Option String
  | some s => if s == "" then none else some s
  | none => none

def isListValue : FileCache.CacheValue → Bool
  | .list _ => true
  | _ => false

/-- Outcome of `parser_instance.peek()`: the returned `(vid, title)` pair, or
an exception (which the handler turns into `(None, None)`). -/
inductive PeekOutcome where
  | ok (vid : Option String) (title : Option String)
  | err
deriving DecidableEq, Repr

/-- Net outcome of the parse-and-deliver phase (source lines 150–208) when
control reaches it: whether `parse()` raises, the `ParseResult.success` and
`vid` that `_sync_record_with_result` would copy into the record, and
whether the delivery step afterwards raises. -/
structure RestOutcome where
  parse_raises : Bool
  parse_success : Bool
  parse_vid : Option String
  delivery_raises : Bool
deriving DecidableEq, Repr

/-- Observable effects of one `generic_command_handler` run: how many times
`cache_del` ran (the function imports it but its body never calls it),
whether `parse()` was invoked, whether the outer `except` sent the generic
`EXCEPTION_MSG`, whether the task lock was released, and the record that the
`finally` block hands to `_record_user_parse`. -/
structure HandlerResult where
  cache_deletes : ℕ
  parse_called : Bool
  exception_msg_sent : Bool
  task_released : Bool
  recorded : Recorder.RecordEntry
deriving DecidableEq, Repr

/-- The parse-onward phase: `parse()` (a raise lands in the outer `except`),
then `_sync_record_with_result` (sets `record.success` and `record.vid`),
then delivery (a raise lands in the outer `except`, after the sync). -/
def restPhase (record0 : Recorder.ParseInfo) (now : ℚ) (rest : RestOutcome) : HandlerResult :=
  if rest.parse_raises then
    { cache_deletes := 0, parse_called := true, exception_msg_sent := true,
      task_released := true, recorded := Recorder.buildRecord record0 now }
  else
    let record1 := { record0 with success := rest.parse_success, vid := rest.parse_vid }
    if rest.delivery_raises then
      { cache_deletes := 0, parse_called := true, exception_msg_sent := true,
        task_released := true, recorded := Recorder.buildRecord record1 now }
    else
      { cache_deletes := 0, parse_called := true, exception_msg_sent := false,
        task_released := true, recorded := Recorder.buildRecord record1 now }

/-- The driver `generic_command_handler` after its rate/task gates, for a request by
`uid` started at time `start` and recorded at time `now`.  The
`UserParseResult` is created with empty `fid` and `success=False`; `peek` is
tried, a truthy `vid` is looked up in the handle cache, and a found entry is
sent by its stored handle (`_send_by_file_id`, outcome `send_fid_ok`) unless
the gallery cache switch suppresses the hit.  A successful cached send sets
`record.success = True` and returns; a raise from the send lands in the
outer `except`, which sends the generic error message.  The `finally` block
always releases the task lock and records the request.  No branch deletes a
cache entry and no branch updates `record.fid`. -/
def generic_command_handler (uid : ℕ) (start now : ℚ) (peek : PeekOutcome)
    (cache : FileCache.Cache) (images_cache_switch : Bool) (send_fid_ok : Bool)
    (rest : RestOutcome) : HandlerResult :=
  let record0 : Recorder.ParseInfo :=
    { uid := uid, vid := none, success := false, fid := [], start_time := some start }
  let vid0 : Option String :=
    match peek with
    | .ok v _ => truthyStr v
    | .err => none
  let hitEntry : Option FileCache.Entry :=
    match vid0 with
    | some v => FileCache.cacheGet cache v
    | none => none
  match hitEntry with
  | some e =>
      if images_cache_switch && isListValue e.value then
        restPhase record0 now rest
      else if send_fid_ok then
        { cache_deletes := 0, parse_called := false, exception_msg_sent := false,
          task_released := true,
          recorded := Recorder.buildRecord { record0 with success := true } now }
      else
        { cache_deletes := 0, parse_called := false, exception_msg_sent := true,
          task_released := true, recorded := Recorder.buildRecord record0 now }
  | none => restPhase record0 now rest

/-- A resolver media item, `MediaItem` of `src/TelegramBot/parsers/base.py`:
a local path plus a `file_type` of `"video"` or `"photo"`. -/
structure MediaItem where
  local_path : String
  file_type : String
deriving DecidableEq, Repr

/-- A built transport media object: `InputMediaVideo` or `InputMediaPhoto`
with its per-item caption. -/
inductive InputMedia where
  | video (media : String) (caption : Option String)
  | photo (media : String) (caption : Option String)
deriving DecidableEq, Repr

def InputMedia.mediaPath : InputMedia → String
  | .video m _ => m
  | .photo m _ => m

def InputMedia.caption : InputMedia → Option String
  | .video _ c => c
  | .photo _ c => c

def InputMedia.isVideo : InputMedia → Bool
  | .video _ _ => true
  | .photo _ _ => false

/-- The background-music hyperlink appended to the first caption when the
result carries an `audio_uri` (a `None` title renders as the string
`"None"`, as in the Python f-string). -/
def musicLink (uri : String) (audio_title : Option String) : String :=
  "<b>🎧<a href=\"" ++ uri ++ "\">下载背景乐 "
    ++ (match audio_title with | some t => t | none => "None") ++ "</a></b>"

def strTruthy : Option String → Bool
  | some s => s != ""
  | none => false

/-- Caption of the gallery item at index `i`: only index 0 gets the result
title; when a truthy `audio_uri` exists, index 0 gets the music link
appended (or the link alone when the base caption is falsy); every other
index gets `None`. -/
def galleryCaption (title audio_uri audio_title : Option String) (i : ℕ) : Option String :=
  let base := if i = 0 then title else none
  match truthyStr audio_uri with
  | some uri =>
      if i = 0 then
        some (if strTruthy base then base.getD "" ++ "\n\n" ++ musicLink uri audio_title
              else musicLink uri audio_title)
      else base
  | none => base

/-- One iteration of the build loop: the item at index `i` becomes an
`InputMediaVideo` when its `file_type` is `"video"`, otherwise an
`InputMediaPhoto`, with the caption for its index. -/
def buildItem (title audio_uri audio_title : Option String) (i : ℕ) (item : MediaItem) : InputMedia :=
  let cap := galleryCaption title audio_uri audio_title i
  if item.file_type == "video" then .video item.local_path cap
  else .photo item.local_path cap

def buildGalleryFrom (title audio_uri audio_title : Option String) :
    ℕ → List MediaItem → List InputMedia
  | _, [] => []
  | i, item :: rest =>
      buildItem title audio_uri audio_title i item
        :: buildGalleryFrom title audio_uri audio_title (i + 1) rest

/-- The `media_group_items` list at the end of the build loop of the
image-gallery branch of `_upload_and_send`. -/
def buildGalleryMedia (items : List MediaItem) (title audio_uri audio_title : Option String) :
    List InputMedia :=
  buildGalleryFrom title audio_uri audio_title 0 items

/-- Python slicing `[l[i:i+n] for i in range(0, len(l), n)]`. -/
def chunks {α : Type} (n : ℕ) : List α → List (List α)
  | [] => []
  | x :: xs => (x :: xs.take (n - 1)) :: chunks n (xs.drop (n - 1))
termination_by l => l.length
decreasing_by simp [List.length_drop]; omega

/-- The successive `media=chunk` arguments of the `send_media_group` calls
the gallery branch makes: the built list, sent in slices of at most 10. -/
def upload_gallery_calls (items : List MediaItem)
    (title audio_uri audio_title : Option String) : List (List InputMedia) :=
  chunks 10 (buildGalleryMedia items title audio_uri audio_title)

/-- The 14-item mixed gallery of the specification's end-to-end scenario 4:
p,p,v,p,p,v,p,p,v,p,p,v,p,p. -/
def demoGallery : List MediaItem :=
  [⟨"p01", "photo"⟩, ⟨"p02", "photo"⟩, ⟨"v03", "video"⟩, ⟨"p04", "photo"⟩,
   ⟨"p05", "photo"⟩, ⟨"v06", "video"⟩, ⟨"p07", "photo"⟩, ⟨"p08", "photo"⟩,
   ⟨"v09", "video"⟩, ⟨"p10", "photo"⟩, ⟨"p11", "photo"⟩, ⟨"v12", "video"⟩,
   ⟨"p13", "photo"⟩, ⟨"p14", "photo"⟩]

end GenericHandler

namespace MDownload

/-! Embedding of `src/PublicMethods/m_download.py`: the retry loop of
`Downloader._single_download` and the segment-range computation of
`Downloader.download`. -/

/-- Outcome of one GET attempt inside `_single_download`'s retry loop. -/
inductive Attempt where
  | ok
  | netError
  | ioError
deriving DecidableEq, Repr

/-- What a `_single_download` invocation did: whether it returned `path`
normally, whether it raised `DownloadError`, and whether the downloaded file
was installed at `path` (`os.replace(tmp_path, path)`). -/
structure SingleResult where
  returned_path : Bool
  raised_download_error : Bool
  file_installed : Bool
deriving DecidableEq, Repr

/-- The default retry count of `_single_download`. -/
def RETRY : ℕ := 3

/-- The retry loop of `_single_download` over the outcomes of its successive GET
attempts: a successful attempt streams to `path + ".single_part"`, renames
it onto `path` and returns `path`; a failed attempt logs and continues; when
every attempt has failed the loop falls through to the trailing
`return path` — the `raise DownloadError` statements in the handlers are
commented out, so no error is ever raised from here. -/
def single_download_run : List Attempt → SingleResult
  | [] => { returned_path := true, raised_download_error := false, file_installed := false }
  | .ok :: _ => { returned_path := true, raised_download_error := false, file_installed := true }
  | .netError :: rest => single_download_run rest
  | .ioError :: rest => single_download_run rest

/-- The condition under which `download` picks the segmented path: the
HEAD-reported size is at least 2 MiB and the configured thread count is at
least 2 (a size below 2 MiB or `threads == 1` goes single-threaded). -/
def segmented_chosen (total threads : ℕ) : Prop :=
  2 * 1024 * 1024 ≤ total ∧ 2 ≤ threads

instance (total threads : ℕ) : Decidable (segmented_chosen total threads) :=
  inferInstanceAs (Decidable (And _ _))

/-- One iteration of the segmentation loop of `download` for segment `i`:
`start_byte = i * part_size`; `end_byte = (i+1) * part_size - 1` except for
the last segment, whose end is `total_size - 1`; a segment whose start
exceeds its end is skipped (`continue` — no worker is spawned for it).
Byte positions are integers, as in Python. -/
def segRange (total threads ps i : ℕ) : Option (ℤ × ℤ) :=
  let lo : ℤ := (i : ℤ) * ps
  let stop : ℤ := if i < threads - 1 then ((i : ℤ) + 1) * ps - 1 else (total : ℤ) - 1
  if lo > stop then none else some (lo, stop)

/-- The byte ranges the segmentation loop spawns workers for:
`part_size = total_size // self.threads`, loop over `i in range(threads)`. -/
def segment_ranges (total threads : ℕ) : List (ℤ × ℤ) :=
  (List.range threads).filterMap (segRange total threads (total / threads))

end MDownload

/-! Helper lemmas about the association-list maps. -/

namespace FileCache

theorem diskGet_cons (x : String × String) (d : Disk) (m : String) :
    diskGet (x :: d) m = if x.1 = m then some x.2 else diskGet d m := by
  by_cases h : x.1 = m
  · have hb : (x.1 == m) = true := by simp [h]
    simp [diskGet, List.find?, hb, h]
  · have hb : (x.1 == m) = false := by simp [h]
    simp [diskGet, List.find?, hb, h]

theorem diskGet_filter_ne (d : Disk) (n m : String) (h : m ≠ n) :
    diskGet (d.filter (fun p => p.1 != n)) m = diskGet d m := by
  induction d with
  | nil => rfl
  | cons x xs ih =>
      by_cases hx : x.1 = n
      · have hxm : x.1 ≠ m := by rw [hx]; exact fun hh => h hh.symm
        have hb : (x.1 != n) = false := by simp [hx]
        simp [List.filter_cons, hb, ih, diskGet_cons, hxm]
      · have hb : (x.1 != n) = true := by simp [hx]
        by_cases hxm : x.1 = m
        · simp [List.filter_cons, hb, diskGet_cons, hxm, h]
        · simp [List.filter_cons, hb, diskGet_cons, hxm, ih]

theorem diskGet_diskSet (d : Disk) (n v m : String) :
    diskGet (diskSet d n v) m = if m = n then some v else diskGet d m := by
  by_cases h : m = n
  · simp [diskSet, diskGet_cons, h]
  · have hnm : n ≠ m := fun hh => h hh.symm
    simp [diskSet, diskGet_cons, hnm, h, diskGet_filter_ne d n m h]

theorem diskGet_diskRemove (d : Disk) (n m : String) :
    diskGet (diskRemove d n) m = if m = n then none else diskGet d m := by
  by_cases h : m = n
  · subst h
    simp only [diskRemove, if_pos rfl]
    induction d with
    | nil => rfl
    | cons x xs ih =>
        by_cases hx : x.1 = m
        · have hb : (x.1 != m) = false := by simp [hx]
          simp [List.filter_cons, hb, ih]
        · have hb : (x.1 != m) = true := by simp [hx]
          simp [List.filter_cons, hb, diskGet_cons, hx, ih]
  · simp [diskRemove, diskGet_filter_ne d n m h, h]

end FileCache

namespace FileCache

theorem cacheGet_cons (x : String × Entry) (c : Cache) (k : String) :
    cacheGet (x :: c) k = if x.1 = k then some x.2 else cacheGet c k := by
  by_cases h : x.1 = k
  · have hb : (x.1 == k) = true := by simp [h]
    simp [cacheGet, List.find?, hb, h]
  · have hb : (x.1 == k) = false := by simp [h]
    simp [cacheGet, List.find?, hb, h]

theorem cacheGet_map_update (c : Cache) (k : String) (g : Entry → Entry) :
    cacheGet (c.map fun p => if p.1 == k then (p.1, g p.2) else p) k
      = (cacheGet c k).map g := by
  induction c with
  | nil => rfl
  | cons x xs ih =>
      rw [List.map_cons, cacheGet_cons, cacheGet_cons]
      by_cases hx : x.1 = k
      · rw [if_pos (show (x.1 == k) = true by simp [hx])]
        rw [if_pos hx, if_pos hx, Option.map_some']
      · rw [if_neg (show ¬(x.1 == k) = true by simp [hx])]
        rw [if_neg hx, if_neg hx]
        exact ih

theorem cacheGet_map_update_ne (c : Cache) (k k2 : String) (g : Entry → Entry)
    (h : k2 ≠ k) :
    cacheGet (c.map fun p => if p.1 == k then (p.1, g p.2) else p) k2
      = cacheGet c k2 := by
  induction c with
  | nil => rfl
  | cons x xs ih =>
      rw [List.map_cons, cacheGet_cons, cacheGet_cons]
      by_cases hx : x.1 = k
      · rw [if_pos (show (x.1 == k) = true by simp [hx])]
        have hxk2 : ¬x.1 = k2 := by rw [hx]; exact fun hh => h hh.symm
        rw [if_neg hxk2, if_neg hxk2]
        exact ih
      · rw [if_neg (show ¬(x.1 == k) = true by simp [hx])]
        by_cases hxk2 : x.1 = k2
        · rw [if_pos hxk2, if_pos hxk2]
        · rw [if_neg hxk2, if_neg hxk2]
          exact ih

theorem putEntryUpdate_all_none (e : Entry) (fid : CacheValue) :
    putEntryUpdate e fid none none none = { e with value := fid } := rfl

theorem runOps_atomic_write (d : Disk) (tmp data : String) :
    runOps d (atomic_write_ops tmp data)
      = diskSet (diskRemove (diskSet d tmp data) tmp) CACHE_FILE data := by
  have h1 : diskGet (diskSet d tmp data) tmp = some data := by
    rw [diskGet_diskSet, if_pos rfl]
  simp only [runOps, atomic_write_ops, List.foldl, applyOp, h1]

end FileCache

/-- C1 is refuted on the code: `save` writes the serialized map to a fresh
temp file, fsyncs it and renames it directly onto `file_id_cache.json`,
never renaming the existing cache file to a backup, so after a successful
save triggered by `put` no backup of the previous cache file exists on disk;
moreover `delete` of an absent key triggers no save at all, and the emitted
operation trace differs from the four-step protocol the claim describes. -/
theorem C1_counterexample :
    FileCache.diskGet
        (FileCache.runOps [(FileCache.CACHE_FILE, "old")]
          (FileCache.put_save_ops [("v1", FileCache.normalize_entry (.bare (.str "F1")))]
            "v2" (.str "F2") none none none "tmpA1"))
        FileCache.BACKUP_FILE = none ∧
    FileCache.delete_save_ops [("v1", FileCache.normalize_entry (.bare (.str "F1")))]
        "v9" "tmpA2" = [] ∧
    FileCache.put_save_ops [("v1", FileCache.normalize_entry (.bare (.str "F1")))]
        "v2" (.str "F2") none none none "tmpA1"
      ≠ FileCache.claimed_save_protocol
          (FileCache.put [("v1", FileCache.normalize_entry (.bare (.str "F1")))]
            "v2" (.str "F2") none none none)
          [(FileCache.CACHE_FILE, "old")] := by
  refine ⟨by decide, by decide, by decide⟩

/-- C1 (amended): every `put`, and every `delete` of a present key, triggers
a save that serializes the full in-memory map to a fresh temp file in the
cache directory, fsyncs it, and renames the temp file directly onto
`file_id_cache.json`; the cache file then holds the new serialization while
any backup file is left exactly as it was (no backup is created).  A
`delete` of an absent key triggers no save at all. -/
theorem C1_amended_save (c : FileCache.Cache) (key : String)
    (fid : FileCache.CacheValue) (t : Option String)
    (r : Option (List (List String))) (pm : Option String) (tmp : String)
    (d : FileCache.Disk)
    (h1 : tmp ≠ FileCache.CACHE_FILE) (h2 : tmp ≠ FileCache.BACKUP_FILE) :
    FileCache.put_save_ops c key fid t r pm tmp
        = [FileCache.FsOp.writeTempFsync tmp
             (FileCache.serializeCache (FileCache.put c key fid t r pm)),
           FileCache.FsOp.rename tmp FileCache.CACHE_FILE] ∧
    FileCache.diskGet
        (FileCache.runOps d (FileCache.put_save_ops c key fid t r pm tmp))
        FileCache.CACHE_FILE
      = some (FileCache.serializeCache (FileCache.put c key fid t r pm)) ∧
    FileCache.diskGet
        (FileCache.runOps d (FileCache.put_save_ops c key fid t r pm tmp))
        FileCache.BACKUP_FILE
      = FileCache.diskGet d FileCache.BACKUP_FILE ∧
    ((FileCache.cacheGet c key).isSome = true →
      FileCache.delete_save_ops c key tmp
          = [FileCache.FsOp.writeTempFsync tmp
               (FileCache.serializeCache (FileCache.delete c key).1),
             FileCache.FsOp.rename tmp FileCache.CACHE_FILE] ∧
      FileCache.diskGet
          (FileCache.runOps d (FileCache.delete_save_ops c key tmp))
          FileCache.CACHE_FILE
        = some (FileCache.serializeCache (FileCache.delete c key).1) ∧
      FileCache.diskGet
          (FileCache.runOps d (FileCache.delete_save_ops c key tmp))
          FileCache.BACKUP_FILE
        = FileCache.diskGet d FileCache.BACKUP_FILE) ∧
    ((FileCache.cacheGet c key).isSome = false →
      FileCache.delete_save_ops c key tmp = []) := by
  have hcb : FileCache.BACKUP_FILE ≠ FileCache.CACHE_FILE := by decide
  have hbt : FileCache.BACKUP_FILE ≠ tmp := fun hh => h2 hh.symm
  refine ⟨rfl, ?_, ?_, ?_, ?_⟩
  · rw [FileCache.put_save_ops, FileCache.save_ops, FileCache.runOps_atomic_write,
      FileCache.diskGet_diskSet, if_pos rfl]
  · rw [FileCache.put_save_ops, FileCache.save_ops, FileCache.runOps_atomic_write,
      FileCache.diskGet_diskSet, if_neg hcb, FileCache.diskGet_diskRemove,
      if_neg hbt, FileCache.diskGet_diskSet, if_neg hbt]
  · intro hpresent
    refine ⟨?_, ?_, ?_⟩
    · simp only [FileCache.delete_save_ops, hpresent, if_true]
      rfl
    · simp only [FileCache.delete_save_ops, hpresent, if_true]
      rw [FileCache.save_ops, FileCache.runOps_atomic_write,
        FileCache.diskGet_diskSet, if_pos rfl]
    · simp only [FileCache.delete_save_ops, hpresent, if_true]
      rw [FileCache.save_ops, FileCache.runOps_atomic_write,
        FileCache.diskGet_diskSet, if_neg hcb, FileCache.diskGet_diskRemove,
        if_neg hbt, FileCache.diskGet_diskSet, if_neg hbt]
  · intro habsent
    simp only [FileCache.delete_save_ops, habsent]
    rfl

/-- Witness for the amended C1 at a concrete cache, disk and temp name,
exercising both the put-triggered save and the delete-of-present-key save. -/
theorem C1_amended_save_witness :
    ("tmpA1" ≠ FileCache.CACHE_FILE ∧ "tmpA1" ≠ FileCache.BACKUP_FILE ∧
      (FileCache.cacheGet [("v1", FileCache.normalize_entry (.bare (.str "F1")))]
          "v1").isSome = true) ∧
    FileCache.diskGet
        (FileCache.runOps [(FileCache.CACHE_FILE, "old")]
          (FileCache.put_save_ops [("v1", FileCache.normalize_entry (.bare (.str "F1")))]
            "v1" (.str "F2") none none none "tmpA1"))
        FileCache.BACKUP_FILE
      = FileCache.diskGet [(FileCache.CACHE_FILE, "old")] FileCache.BACKUP_FILE ∧
    FileCache.diskGet
        (FileCache.runOps [(FileCache.CACHE_FILE, "old")]
          (FileCache.delete_save_ops [("v1", FileCache.normalize_entry (.bare (.str "F1")))]
            "v1" "tmpA1"))
        FileCache.CACHE_FILE
      = some (FileCache.serializeCache
          (FileCache.delete [("v1", FileCache.normalize_entry (.bare (.str "F1")))]
            "v1").1) :=
  ⟨⟨by decide, by decide, by decide⟩,
    (C1_amended_save [("v1", FileCache.normalize_entry (.bare (.str "F1")))]
      "v1" (.str "F2") none none none "tmpA1" [(FileCache.CACHE_FILE, "old")]
      (by decide) (by decide)).2.2.1,
    ((C1_amended_save [("v1", FileCache.normalize_entry (.bare (.str "F1")))]
      "v1" (.str "F2") none none none "tmpA1" [(FileCache.CACHE_FILE, "old")]
      (by decide) (by decide)).2.2.2.1 (by decide)).2.1⟩

/-- C10: for a key already present in the handle cache, `put(key, file_id)`
with `title`, `reply` and `parse_mode` omitted replaces only the entry's
`value` field, leaving its `title`, `reply` and `parse_mode` unchanged (and
leaves every other key's entry untouched). -/
theorem C10_put_replaces_only_value (c : FileCache.Cache) (k : String)
    (e : FileCache.Entry) (fid : FileCache.CacheValue)
    (h : FileCache.cacheGet c k = some e) :
    FileCache.cacheGet (FileCache.put c k fid none none none) k
        = some { e with value := fid } ∧
    ∀ k2, k2 ≠ k →
      FileCache.cacheGet (FileCache.put c k fid none none none) k2
        = FileCache.cacheGet c k2 := by
  have hs : (FileCache.cacheGet c k).isSome = true := by rw [h]; rfl
  have hmu := FileCache.cacheGet_map_update c k
    (fun x => FileCache.putEntryUpdate x fid none none none)
  have hmune := fun k2 (hk2 : k2 ≠ k) => FileCache.cacheGet_map_update_ne c k k2
    (fun x => FileCache.putEntryUpdate x fid none none none) hk2
  constructor
  · rw [FileCache.put, if_pos hs, hmu, h, Option.map_some',
      FileCache.putEntryUpdate_all_none]
  · intro k2 hk2
    rw [FileCache.put, if_pos hs, hmune k2 hk2]

/-- Witness for C10 at a concrete cache entry. -/
theorem C10_put_replaces_only_value_witness :
    FileCache.cacheGet
        [("v1", ({ title := "T", value := .str "A", reply := some [["btn"]],
                   parse_mode := some "HTML" } : FileCache.Entry))] "v1"
      = some { title := "T", value := .str "A", reply := some [["btn"]],
               parse_mode := some "HTML" } ∧
    FileCache.cacheGet
        (FileCache.put
          [("v1", ({ title := "T", value := .str "A", reply := some [["btn"]],
                     parse_mode := some "HTML" } : FileCache.Entry))]
          "v1" (.str "B") none none none) "v1"
      = some { title := "T", value := .str "B", reply := some [["btn"]],
               parse_mode := some "HTML" } :=
  ⟨by decide,
    (C10_put_replaces_only_value
      [("v1", ({ title := "T", value := .str "A", reply := some [["btn"]],
                 parse_mode := some "HTML" } : FileCache.Entry))]
      "v1"
      { title := "T", value := .str "A", reply := some [["btn"]],
        parse_mode := some "HTML" }
      (.str "B") (by decide)).1⟩

namespace RateLimiterM

theorem allow_of_lt (s : State) (uid : ℕ) (now : ℚ)
    (h : now - getLast s uid < s.min_interval) :
    allow s uid now = (false, s) := by
  rw [allow, if_pos h]

theorem allow_of_ge (s : State) (uid : ℕ) (now : ℚ)
    (h : ¬now - getLast s uid < s.min_interval) :
    allow s uid now
      = (true, { s with last_sent := (uid, now) :: s.last_sent.filter (fun p => p.1 != uid) }) := by
  rw [allow, if_neg h]

theorem getLast_after_admit (s : State) (uid : ℕ) (now : ℚ) :
    getLast { s with last_sent := (uid, now) :: s.last_sent.filter (fun p => p.1 != uid) } uid
      = now := by
  simp [getLast, List.find?]

/-- Once a call has been admitted at time `t`, every later call that comes
less than `min_interval` after `t` is rejected and leaves the state
unchanged, so a whole tail of such calls yields only rejections. -/
theorem runCalls_all_rejected (s : State) (uid : ℕ) (times : List ℚ)
    (hlast : ∀ t ∈ times, t - getLast s uid < s.min_interval) :
    runCalls s uid times = List.replicate times.length false := by
  induction times with
  | nil => rfl
  | cons t ts ih =>
      have ht := hlast t (List.mem_cons_self t ts)
      rw [runCalls, allow_of_lt s uid t ht]
      rw [ih fun t2 ht2 => hlast t2 (List.mem_cons_of_mem t ht2)]
      rfl

end RateLimiterM

/-- C3 is refuted on the code: with min_interval = 3, calls by one uid at
times 100, 102 and 104 — every consecutive pair separated by 2 < 3 — get the
answers [true, false, true]: two calls are admitted, because `allow`
refreshes the stored timestamp only on admission, so rejected calls do not
extend the window. -/
theorem C3_counterexample :
    ((102 : ℚ) - 100 < 3 ∧ (104 : ℚ) - 102 < 3) ∧
    RateLimiterM.runCalls { min_interval := 3, last_sent := [] } 7 [100, 102, 104]
      = [true, false, true] := by
  refine ⟨by norm_num, ?_⟩
  simp only [RateLimiterM.runCalls, RateLimiterM.allow, RateLimiterM.getLast,
    List.find?, List.filter]
  norm_num

/-- C3 (amended): two admitted calls are always at least min_interval apart;
consequently, for every sequence of allow(uid) calls by a single uid that
all lie inside one window of length min_interval (all call times t satisfy
b ≤ t and t - b < min_interval for some base b), at most one call in the
sequence returns true. -/
theorem C3_amended_single_window (s : RateLimiterM.State) (uid : ℕ)
    (times : List ℚ) (b : ℚ)
    (hwin : ∀ t ∈ times, b ≤ t ∧ t - b < s.min_interval) :
    (RateLimiterM.runCalls s uid times).count true ≤ 1 := by
  induction times generalizing s with
  | nil => simp [RateLimiterM.runCalls]
  | cons t ts ih =>
      have ht := hwin t (List.mem_cons_self t ts)
      by_cases hc : t - RateLimiterM.getLast s uid < s.min_interval
      · rw [RateLimiterM.runCalls, RateLimiterM.allow_of_lt s uid t hc]
        have hrest := ih s fun t2 ht2 => hwin t2 (List.mem_cons_of_mem t ht2)
        simpa [List.count_cons] using hrest
      · rw [RateLimiterM.runCalls, RateLimiterM.allow_of_ge s uid t hc]
        have hrej : RateLimiterM.runCalls
            { s with last_sent := (uid, t) :: s.last_sent.filter (fun p => p.1 != uid) }
            uid ts = List.replicate ts.length false := by
          apply RateLimiterM.runCalls_all_rejected
          intro t2 ht2
          have ht2w := hwin t2 (List.mem_cons_of_mem t ht2)
          rw [RateLimiterM.getLast_after_admit]
          show t2 - t < s.min_interval
          have hb : b ≤ t := ht.1
          have : t2 - b < s.min_interval := ht2w.2
          linarith
        rw [hrej]
        simp [List.count_cons, List.count_replicate]

/-- Witness for the amended C3: three calls inside one 3-second window. -/
theorem C3_amended_single_window_witness :
    (∀ t ∈ [(100 : ℚ), 101, 102], 100 ≤ t ∧
        t - 100 < ({ min_interval := 3, last_sent := [] } : RateLimiterM.State).min_interval) ∧
    (RateLimiterM.runCalls { min_interval := 3, last_sent := [] } 7
        [100, 101, 102]).count true ≤ 1 :=
  ⟨by intro t ht; fin_cases ht <;> norm_num [RateLimiterM.State.min_interval],
   C3_amended_single_window { min_interval := 3, last_sent := [] } 7
     [100, 101, 102] 100
     (by intro t ht; fin_cases ht <;> norm_num [RateLimiterM.State.min_interval])⟩

/-- C5 is refuted on the code: with a non-cache-hit record for vid "v1"
already stored for uid 1, recording a second non-cache-hit parse of the same
vid appends a second record instead of suppressing it — the
duplicate-suppression block of `_record_user_parse` is commented out. -/
theorem C5_counterexample :
    Recorder.getRecords
        (Recorder.record_user_parse
          [(1, [{ uid := 1, vid := some "v1", is_cached_hit := false,
                  parse_success := true, work_time := some 1 }])]
          { uid := 1, vid := some "v1", success := true, fid := [], start_time := none }
          50)
        1
      = [{ uid := 1, vid := some "v1", is_cached_hit := false,
           parse_success := true, work_time := some 1 },
         { uid := 1, vid := some "v1", is_cached_hit := false,
           parse_success := true, work_time := none }] := by decide

/-- C5 (amended): `_record_user_parse` appends its record unconditionally —
cache hit or not, repeated vid or not — so the uid's record list always
grows by exactly the newly built record and nothing is ever suppressed. -/
theorem C5_amended_append_always (d : Recorder.StatsData)
    (info : Recorder.ParseInfo) (now : ℚ) :
    Recorder.getRecords (Recorder.record_user_parse d info now) info.uid
      = Recorder.getRecords d info.uid ++ [Recorder.buildRecord info now] := by
  rw [Recorder.record_user_parse, Recorder.setRecords, Recorder.getRecords]
  simp [List.find?]

/-- C9 is refuted on the code: a duration of 4000 s (start 0, now 4000) is
beyond the 3600 s cap, and `_record_user_parse` stores null for it rather
than the clamped-and-rounded value the claim's formula prescribes. -/
theorem C9_counterexample :
    Recorder.work_time_s (some 0) 4000 = none ∧
    Recorder.work_time_s (some 0) 4000
      ≠ some (Recorder.round2 (max 0 (min 3600 ((4000 : ℚ) - 0)))) := by
  have h : Recorder.work_time_s (some 0) 4000 = none := by
    simp only [Recorder.work_time_s]
    norm_num
  exact ⟨h, by rw [h]; exact fun hc => Option.noConfusion hc⟩

/-- C9 (amended): for durations of at most 3600 s the stored work_time_s is
max(0, min(3600, now - start)) rounded to two decimals (negative durations
clamp to 0); durations beyond 3600 s are stored as null. -/
theorem C9_amended_clamp_or_null (st now : ℚ) :
    (now - st ≤ 3600 → Recorder.work_time_s (some st) now
        = some (Recorder.round2 (max 0 (min 3600 (now - st))))) ∧
    (3600 < now - st → Recorder.work_time_s (some st) now = none) := by
  constructor
  · intro hle
    simp only [Recorder.work_time_s]
    by_cases hneg : now - st < 0
    · rw [if_pos hneg]
      have hmm : max 0 (min 3600 (now - st)) = 0 := by
        rw [min_eq_right (by linarith), max_eq_left (by linarith)]
      rw [hmm]
      simp [Recorder.round2]
    · rw [if_neg hneg, if_neg (by linarith)]
      have hmm : max 0 (min 3600 (now - st)) = now - st := by
        rw [min_eq_right hle, max_eq_right (by linarith)]
      rw [hmm]
  · intro hgt
    simp only [Recorder.work_time_s]
    rw [if_neg (by linarith), if_pos hgt]

/-- Witness for the amended C9: an in-range duration and an out-of-range one. -/
theorem C9_amended_clamp_or_null_witness :
    ((100 : ℚ) - 0 ≤ 3600 ∧ Recorder.work_time_s (some 0) 100
        = some (Recorder.round2 (max 0 (min 3600 ((100 : ℚ) - 0))))) ∧
    (3600 < (4000 : ℚ) - 0 ∧ Recorder.work_time_s (some 0) 4000 = none) :=
  ⟨⟨by norm_num, (C9_amended_clamp_or_null 0 100).1 (by norm_num)⟩,
   ⟨by norm_num, (C9_amended_clamp_or_null 0 4000).2 (by norm_num)⟩⟩

/-- C2 exhibited as a code bug: on a request served from the handle cache
(peek yields vid "v_123", whose entry exists) whose send-by-handle raises a
stale-reference error, `generic_command_handler` deletes no cache entry and
never falls back to `parse()`: the raise lands in the outer `except`, which
only sends the generic error message (the handler imports `cache_del` but
never calls it, and the stale-handle fallback of the legacy per-platform
handlers is absent). -/
theorem C2_stale_send_no_delete_no_reparse :
    (GenericHandler.generic_command_handler 42 0 5
        (.ok (some "v_123") (some "Hello"))
        [("v_123", { title := "Hello", value := .str "FH_abc", reply := none,
                     parse_mode := some "HTML" })]
        GenericHandler.IMAGES_CACHE_SWITCH false
        { parse_raises := false, parse_success := true, parse_vid := some "v_123",
          delivery_raises := false }).cache_deletes = 0 ∧
    (GenericHandler.generic_command_handler 42 0 5
        (.ok (some "v_123") (some "Hello"))
        [("v_123", { title := "Hello", value := .str "FH_abc", reply := none,
                     parse_mode := some "HTML" })]
        GenericHandler.IMAGES_CACHE_SWITCH false
        { parse_raises := false, parse_success := true, parse_vid := some "v_123",
          delivery_raises := false }).parse_called = false ∧
    (GenericHandler.generic_command_handler 42 0 5
        (.ok (some "v_123") (some "Hello"))
        [("v_123", { title := "Hello", value := .str "FH_abc", reply := none,
                     parse_mode := some "HTML" })]
        GenericHandler.IMAGES_CACHE_SWITCH false
        { parse_raises := false, parse_success := true, parse_vid := some "v_123",
          delivery_raises := false }).exception_msg_sent = true :=
  ⟨rfl, rfl, rfl⟩

/-- C4 exhibited as a code bug: a request served from the handle cache (peek
yields vid "v_123", its entry exists, and the send by handle succeeds) is
recorded with is_cached_hit = false — `generic_command_handler` never
populates `record.fid`, which is what `_record_user_parse` uses to classify
a hit — although parse_success is true as claimed. -/
theorem C4_cache_hit_recorded_as_miss :
    (GenericHandler.generic_command_handler 42 0 5
        (.ok (some "v_123") (some "Hello"))
        [("v_123", { title := "Hello", value := .str "FH_abc", reply := none,
                     parse_mode := some "HTML" })]
        GenericHandler.IMAGES_CACHE_SWITCH true
        { parse_raises := false, parse_success := true, parse_vid := some "v_123",
          delivery_raises := false }).recorded.is_cached_hit = false ∧
    (GenericHandler.generic_command_handler 42 0 5
        (.ok (some "v_123") (some "Hello"))
        [("v_123", { title := "Hello", value := .str "FH_abc", reply := none,
                     parse_mode := some "HTML" })]
        GenericHandler.IMAGES_CACHE_SWITCH true
        { parse_raises := false, parse_success := true, parse_vid := some "v_123",
          delivery_raises := false }).recorded.parse_success = true ∧
    (GenericHandler.generic_command_handler 42 0 5
        (.ok (some "v_123") (some "Hello"))
        [("v_123", { title := "Hello", value := .str "FH_abc", reply := none,
                     parse_mode := some "HTML" })]
        GenericHandler.IMAGES_CACHE_SWITCH true
        { parse_raises := false, parse_success := true, parse_vid := some "v_123",
          delivery_raises := false }).parse_called = false :=
  ⟨rfl, rfl, rfl⟩

/-- C7 exhibited as a code bug: when all three GET attempts of
`_single_download` fail with network errors, the retry loop falls through to
the trailing `return path`: the function returns the destination path
normally, with no `DownloadError` raised and no file installed there — the
`raise DownloadError` statements in its handlers are commented out,
contradicting the function's own documented contract. -/
theorem C7_retry_exhaustion_returns_path :
    MDownload.single_download_run (List.replicate MDownload.RETRY .netError)
      = { returned_path := true, raised_download_error := false,
          file_installed := false } := rfl

namespace GenericHandler

theorem buildItem_caption (t a atitle : Option String) (i : ℕ) (item : MediaItem) :
    (buildItem t a atitle i item).caption = galleryCaption t a atitle i := by
  simp only [buildItem]
  by_cases h : (item.file_type == "video") = true
  · rw [if_pos h]
    rfl
  · rw [if_neg h]
    rfl

theorem buildItem_mediaPath (t a atitle : Option String) (i : ℕ) (item : MediaItem) :
    (buildItem t a atitle i item).mediaPath = item.local_path := by
  simp only [buildItem]
  by_cases h : (item.file_type == "video") = true
  · rw [if_pos h]
    rfl
  · rw [if_neg h]
    rfl

theorem buildItem_isVideo (t a atitle : Option String) (i : ℕ) (item : MediaItem) :
    (buildItem t a atitle i item).isVideo = (item.file_type == "video") := by
  simp only [buildItem]
  by_cases h : (item.file_type == "video") = true
  · rw [if_pos h, h]
    rfl
  · have hf : (item.file_type == "video") = false := by
      cases hb : (item.file_type == "video") with
      | true => exact absurd hb h
      | false => rfl
    rw [if_neg h, hf]
    rfl

theorem galleryCaption_pos (t a atitle : Option String) (i : ℕ) (hi : i ≠ 0) :
    galleryCaption t a atitle i = none := by
  simp only [galleryCaption, if_neg hi]
  cases truthyStr a <;> rfl

theorem buildGalleryFrom_length (t a atitle : Option String) (i : ℕ)
    (items : List MediaItem) :
    (buildGalleryFrom t a atitle i items).length = items.length := by
  induction items generalizing i with
  | nil => rfl
  | cons x xs ih => simp [buildGalleryFrom, ih]

theorem buildGalleryFrom_map_mediaPath (t a atitle : Option String) (i : ℕ)
    (items : List MediaItem) :
    (buildGalleryFrom t a atitle i items).map InputMedia.mediaPath
      = items.map (fun it => it.local_path) := by
  induction items generalizing i with
  | nil => rfl
  | cons x xs ih => simp [buildGalleryFrom, buildItem_mediaPath, ih]

theorem buildGalleryFrom_map_isVideo (t a atitle : Option String) (i : ℕ)
    (items : List MediaItem) :
    (buildGalleryFrom t a atitle i items).map InputMedia.isVideo
      = items.map (fun it => it.file_type == "video") := by
  induction items generalizing i with
  | nil => rfl
  | cons x xs ih => simp [buildGalleryFrom, buildItem_isVideo, ih]

theorem buildGalleryFrom_map_caption_pos (t a atitle : Option String) (i : ℕ)
    (hi : i ≠ 0) (items : List MediaItem) :
    (buildGalleryFrom t a atitle i items).map InputMedia.caption
      = List.replicate items.length none := by
  induction items generalizing i with
  | nil => rfl
  | cons x xs ih =>
      rw [buildGalleryFrom, List.map_cons, buildItem_caption,
        galleryCaption_pos t a atitle i hi, ih (i + 1) (by omega),
        List.length_cons, List.replicate_succ]

theorem chunks_flatten {α : Type} (n : ℕ) (l : List α) :
    (chunks n l).flatten = l := by
  match l with
  | [] => simp [chunks]
  | x :: xs =>
      rw [chunks, List.flatten_cons, chunks_flatten n (xs.drop (n - 1))]
      rw [List.cons_append, List.take_append_drop]
termination_by l.length
decreasing_by simp [List.length_drop]; omega

theorem chunks_length {α : Type} (n : ℕ) (hn : 1 ≤ n) (l : List α) :
    (chunks n l).length = (l.length + (n - 1)) / n := by
  match l with
  | [] =>
      have hd : (n - 1) / n = 0 := Nat.div_eq_of_lt (by omega)
      simp [chunks, hd]
  | x :: xs =>
      rw [chunks, List.length_cons, chunks_length n hn (xs.drop (n - 1)),
        List.length_drop, List.length_cons]
      have e1 : xs.length + 1 + (n - 1) = xs.length + n := by omega
      rw [e1, Nat.add_div_right _ (by omega : 0 < n)]
      rcases le_or_lt (n - 1) xs.length with h | h
      · have e2 : xs.length - (n - 1) + (n - 1) = xs.length := by omega
        rw [e2]
      · have e2 : xs.length - (n - 1) = 0 := by omega
        rw [e2, Nat.zero_add, Nat.div_eq_of_lt (by omega),
          Nat.div_eq_of_lt (by omega)]
termination_by l.length
decreasing_by simp [List.length_drop]; omega

end GenericHandler

/-- C6: for a gallery result with K mixed photo/video items, the upload step
sends the built media list in exactly ceil(K/10) send_media_group calls; the
concatenation of the sent chunks is the built list itself, whose item order
(both paths and photo/video kinds) equals the order of media_items at entry;
and every item other than the first carries caption None, the first carrying
the index-0 caption (the title, with the music link appended when an
audio_uri is present). -/
theorem C6_gallery_delivery (items : List GenericHandler.MediaItem)
    (title audio_uri audio_title : Option String) (hne : items ≠ []) :
    (GenericHandler.upload_gallery_calls items title audio_uri audio_title).length
        = (items.length + 9) / 10 ∧
    (GenericHandler.upload_gallery_calls items title audio_uri audio_title).flatten
        = GenericHandler.buildGalleryMedia items title audio_uri audio_title ∧
    ((GenericHandler.upload_gallery_calls items title audio_uri audio_title).flatten.map
        GenericHandler.InputMedia.mediaPath)
        = items.map (fun it => it.local_path) ∧
    ((GenericHandler.upload_gallery_calls items title audio_uri audio_title).flatten.map
        GenericHandler.InputMedia.isVideo)
        = items.map (fun it => it.file_type == "video") ∧
    ((GenericHandler.upload_gallery_calls items title audio_uri audio_title).flatten.map
        GenericHandler.InputMedia.caption)
        = GenericHandler.galleryCaption title audio_uri audio_title 0
            :: List.replicate (items.length - 1) none := by
  have hjoin : (GenericHandler.upload_gallery_calls items title audio_uri audio_title).flatten
      = GenericHandler.buildGalleryMedia items title audio_uri audio_title :=
    GenericHandler.chunks_flatten 10 _
  refine ⟨?_, hjoin, ?_, ?_, ?_⟩
  · rw [GenericHandler.upload_gallery_calls,
      GenericHandler.chunks_length 10 (by omega),
      GenericHandler.buildGalleryMedia, GenericHandler.buildGalleryFrom_length]
  · rw [hjoin, GenericHandler.buildGalleryMedia,
      GenericHandler.buildGalleryFrom_map_mediaPath]
  · rw [hjoin, GenericHandler.buildGalleryMedia,
      GenericHandler.buildGalleryFrom_map_isVideo]
  · rw [hjoin]
    obtain ⟨x, xs, rfl⟩ := List.exists_cons_of_ne_nil hne
    rw [GenericHandler.buildGalleryMedia, GenericHandler.buildGalleryFrom,
      List.map_cons, GenericHandler.buildItem_caption,
      GenericHandler.buildGalleryFrom_map_caption_pos _ _ _ 1 (by omega),
      List.length_cons, Nat.add_sub_cancel]

/-- Witness for C6 at the spec's 14-item mixed gallery (10 photos, 4 videos):
two send_media_group calls. -/
theorem C6_gallery_delivery_witness :
    GenericHandler.demoGallery ≠ [] ∧
    (GenericHandler.upload_gallery_calls GenericHandler.demoGallery
        (some "Hello") none none).length
      = (GenericHandler.demoGallery.length + 9) / 10 ∧
    (GenericHandler.demoGallery.length + 9) / 10 = 2 :=
  ⟨by decide,
   (C6_gallery_delivery GenericHandler.demoGallery (some "Hello") none none
     (by decide)).1,
   by decide⟩

namespace MDownload

theorem segRange_skip_of_ps_zero (total threads i : ℕ) (hi : i < threads - 1) :
    segRange total threads 0 i = none := by
  simp only [segRange]
  rw [if_pos hi]
  norm_num

theorem segRange_last_of_ps_zero (total t : ℕ) (h1 : 1 ≤ total) :
    segRange total (t + 1) 0 t = some (0, (total : ℤ) - 1) := by
  simp only [segRange]
  rw [if_neg (by omega : ¬t < t + 1 - 1)]
  rw [if_neg (by push_cast; omega : ¬((t : ℤ) * ((0 : ℕ) : ℤ) > (total : ℤ) - 1))]
  norm_num

/-- When the thread count exceeds the total size, `part_size` is 0, every
segment but the last is skipped, and the loop spawns a single worker
covering the whole file. -/
theorem segment_ranges_of_total_lt (total threads : ℕ)
    (h1 : 1 ≤ total) (h2 : total < threads) :
    segment_ranges total threads = [((0 : ℤ), (total : ℤ) - 1)] := by
  obtain ⟨t, rfl⟩ : ∃ t, threads = t + 1 := ⟨threads - 1, by omega⟩
  have hps : total / (t + 1) = 0 := Nat.div_eq_of_lt h2
  unfold segment_ranges
  rw [hps, List.range_succ, List.filterMap_append]
  have hnil : (List.range t).filterMap (segRange total (t + 1) 0) = [] := by
    rw [List.filterMap_eq_nil_iff]
    intro i hi
    exact segRange_skip_of_ps_zero total (t + 1) i (by
      have := List.mem_range.mp hi
      omega)
  have hone : List.filterMap (segRange total (t + 1) 0) [t]
      = [((0 : ℤ), (total : ℤ) - 1)] := by
    rw [List.filterMap_cons_some (segRange_last_of_ps_zero total t h1),
      List.filterMap_nil]
  rw [hnil, hone, List.nil_append]

end MDownload

/-- C8 is refuted on the code at a degenerate but reachable input: for a
2 MiB file (segmented download is chosen) with threads = 2097153 > S, the
part size is 0, the loop skips every segment but the last, and only one
range is computed — not N. -/
theorem C8_counterexample :
    MDownload.segmented_chosen 2097152 2097153 ∧
    (MDownload.segment_ranges 2097152 2097153).length ≠ 2097153 := by
  constructor
  · exact ⟨by norm_num, by norm_num⟩
  · rw [MDownload.segment_ranges_of_total_lt 2097152 2097153 (by norm_num) (by norm_num)]
    norm_num

namespace MDownload

theorem filterMap_eq_map_of_some {α β : Type} (f : α → Option β) (g : α → β)
    (l : List α) (h : ∀ a ∈ l, f a = some (g a)) : l.filterMap f = l.map g := by
  induction l with
  | nil => rfl
  | cons x xs ih =>
      rw [List.filterMap_cons_some (h x (List.mem_cons_self x xs)), List.map_cons,
        ih fun a ha => h a (List.mem_cons_of_mem x ha)]

/-- With a part size of at least one byte (threads ≤ total), no segment is
skipped: segment `i` covers `[i*ps, (i+1)*ps - 1]`, the last `[.., total-1]`. -/
theorem segRange_of_ps_pos (total threads ps i : ℕ) (hps : 1 ≤ ps)
    (hmul : threads * ps ≤ total) (hi : i < threads) :
    segRange total threads ps i
      = some ((i : ℤ) * ps,
          if i < threads - 1 then ((i : ℤ) + 1) * ps - 1 else (total : ℤ) - 1) := by
  have hpsZ : (1 : ℤ) ≤ (ps : ℤ) := by exact_mod_cast hps
  have hmulZ : (threads : ℤ) * ps ≤ (total : ℤ) := by exact_mod_cast hmul
  simp only [segRange]
  by_cases hlt : i < threads - 1
  · rw [if_pos hlt]
    have hguard : ¬((i : ℤ) * ps > ((i : ℤ) + 1) * ps - 1) := by
      have hexp : ((i : ℤ) + 1) * ps = (i : ℤ) * ps + ps := by ring
      intro hgt
      rw [hexp] at hgt
      linarith
    rw [if_neg hguard]
  · rw [if_neg hlt]
    have hguard : ¬((i : ℤ) * ps > (total : ℤ) - 1) := by
      have hieq : (i : ℤ) ≤ (threads : ℤ) - 1 := by
        have hstep : i + 1 ≤ threads := hi
        push_cast at hstep ⊢
        linarith
      have hstep : (i : ℤ) * ps ≤ ((threads : ℤ) - 1) * ps :=
        mul_le_mul_of_nonneg_right hieq (by linarith)
      have hexp : ((threads : ℤ) - 1) * ps = (threads : ℤ) * ps - ps := by ring
      intro hgt
      rw [hexp] at hstep
      linarith
    rw [if_neg hguard]

/-- When threads ≤ total, the spawned ranges are exactly the `threads`
computed segments, in index order. -/
theorem segment_ranges_eq_map (total threads : ℕ) (hth : 1 ≤ threads)
    (hts : threads ≤ total) :
    segment_ranges total threads
      = (List.range threads).map (fun i : ℕ =>
          ((i : ℤ) * ((total / threads : ℕ) : ℤ),
           if i < threads - 1 then ((i : ℤ) + 1) * ((total / threads : ℕ) : ℤ) - 1
           else (total : ℤ) - 1)) := by
  unfold segment_ranges
  apply filterMap_eq_map_of_some
  intro i hi
  exact segRange_of_ps_pos total threads (total / threads) i
    ((Nat.one_le_div_iff (by omega)).mpr hts)
    (by rw [Nat.mul_comm]; exact Nat.div_mul_le_self total threads)
    (List.mem_range.mp hi)

end MDownload

namespace MDownload

theorem segment_ranges_length (total threads : ℕ) (hth : 1 ≤ threads)
    (hts : threads ≤ total) :
    (segment_ranges total threads).length = threads := by
  rw [segment_ranges_eq_map total threads hth hts]
  simp

theorem segment_ranges_bounds (total threads : ℕ) (hth : 1 ≤ threads)
    (hts : threads ≤ total) :
    ∀ r ∈ segment_ranges total threads,
      0 ≤ r.1 ∧ r.1 ≤ r.2 ∧ r.2 ≤ (total : ℤ) - 1 := by
  have hps1 : 1 ≤ total / threads := (Nat.one_le_div_iff (by omega)).mpr hts
  have hmulN : threads * (total / threads) ≤ total := by
    rw [Nat.mul_comm]; exact Nat.div_mul_le_self total threads
  have hpsZ : (1 : ℤ) ≤ ((total / threads : ℕ) : ℤ) := by exact_mod_cast hps1
  have hmulZ : (threads : ℤ) * ((total / threads : ℕ) : ℤ) ≤ (total : ℤ) := by
    exact_mod_cast hmulN
  rw [segment_ranges_eq_map total threads hth hts]
  intro r hr
  obtain ⟨i, hir, rfl⟩ := List.mem_map.mp hr
  have hi := List.mem_range.mp hir
  have hiZ : ((i : ℤ) + 1) ≤ (threads : ℤ) := by exact_mod_cast hi
  refine ⟨mul_nonneg (Int.natCast_nonneg i) (by linarith), ?_, ?_⟩
  · show (i : ℤ) * ((total / threads : ℕ) : ℤ)
        ≤ (if i < threads - 1 then ((i : ℤ) + 1) * ((total / threads : ℕ) : ℤ) - 1
           else (total : ℤ) - 1)
    by_cases hlt : i < threads - 1
    · rw [if_pos hlt]
      have hexp : ((i : ℤ) + 1) * ((total / threads : ℕ) : ℤ)
          = (i : ℤ) * ((total / threads : ℕ) : ℤ) + ((total / threads : ℕ) : ℤ) := by ring
      linarith [hexp]
    · rw [if_neg hlt]
      have hstep : (i : ℤ) * ((total / threads : ℕ) : ℤ)
          ≤ ((threads : ℤ) - 1) * ((total / threads : ℕ) : ℤ) :=
        mul_le_mul_of_nonneg_right (by linarith) (by linarith)
      have hexp : ((threads : ℤ) - 1) * ((total / threads : ℕ) : ℤ)
          = (threads : ℤ) * ((total / threads : ℕ) : ℤ) - ((total / threads : ℕ) : ℤ) := by
        ring
      linarith
  · show (if i < threads - 1 then ((i : ℤ) + 1) * ((total / threads : ℕ) : ℤ) - 1
          else (total : ℤ) - 1) ≤ (total : ℤ) - 1
    by_cases hlt : i < threads - 1
    · rw [if_pos hlt]
      have hmm : ((i : ℤ) + 1) * ((total / threads : ℕ) : ℤ)
          ≤ (threads : ℤ) * ((total / threads : ℕ) : ℤ) :=
        mul_le_mul_of_nonneg_right hiZ (by linarith)
      linarith
    · rw [if_neg hlt]

theorem segment_ranges_head (total threads : ℕ) (hth : 1 ≤ threads)
    (hts : threads ≤ total) :
    (segment_ranges total threads).head?.map Prod.fst = some 0 := by
  obtain ⟨t, rfl⟩ : ∃ t, threads = t + 1 := ⟨threads - 1, by omega⟩
  rw [segment_ranges_eq_map total (t + 1) hth hts, List.range_succ_eq_map]
  simp

theorem segment_ranges_chain (total threads : ℕ) (hth : 1 ≤ threads)
    (hts : threads ≤ total) :
    List.Chain' (fun a b => b.1 = a.2 + 1) (segment_ranges total threads) := by
  obtain ⟨t, rfl⟩ : ∃ t, threads = t + 1 := ⟨threads - 1, by omega⟩
  rw [segment_ranges_eq_map total (t + 1) hth hts, List.chain'_map]
  refine (List.chain'_range_succ _ t).mpr ?_
  intro m hm
  show ((m + 1 : ℕ) : ℤ) * ((total / (t + 1) : ℕ) : ℤ)
      = (if m < t + 1 - 1 then ((m : ℤ) + 1) * ((total / (t + 1) : ℕ) : ℤ) - 1
         else (total : ℤ) - 1) + 1
  rw [if_pos (by omega : m < t + 1 - 1)]
  push_cast
  ring

theorem segment_ranges_last (total threads : ℕ) (hth : 1 ≤ threads)
    (hts : threads ≤ total) :
    (segment_ranges total threads).getLast?.map Prod.snd = some ((total : ℤ) - 1) := by
  obtain ⟨t, rfl⟩ : ∃ t, threads = t + 1 := ⟨threads - 1, by omega⟩
  rw [segment_ranges_eq_map total (t + 1) hth hts, List.range_succ, List.map_append,
    List.map_cons, List.map_nil, List.getLast?_concat]
  simp [show ¬t < t + 1 - 1 by omega]

theorem segment_ranges_pairwise (total threads : ℕ) (hth : 1 ≤ threads)
    (hts : threads ≤ total) :
    List.Pairwise (fun a b => a.2 < b.1) (segment_ranges total threads) := by
  have hps1 : 1 ≤ total / threads := (Nat.one_le_div_iff (by omega)).mpr hts
  have hpsZ : (1 : ℤ) ≤ ((total / threads : ℕ) : ℤ) := by exact_mod_cast hps1
  rw [segment_ranges_eq_map total threads hth hts, List.pairwise_iff_getElem]
  intro i j hi hj hij
  simp only [List.length_map, List.length_range] at hi hj
  simp only [List.getElem_map, List.getElem_range]
  show (if i < threads - 1 then ((i : ℤ) + 1) * ((total / threads : ℕ) : ℤ) - 1
        else (total : ℤ) - 1) < (j : ℤ) * ((total / threads : ℕ) : ℤ)
  rw [if_pos (by omega : i < threads - 1)]
  have hiZ : ((i : ℤ) + 1) ≤ (j : ℤ) := by exact_mod_cast hij
  have hmm : ((i : ℤ) + 1) * ((total / threads : ℕ) : ℤ)
      ≤ (j : ℤ) * ((total / threads : ℕ) : ℤ) :=
    mul_le_mul_of_nonneg_right hiZ (by linarith)
  linarith

theorem segment_ranges_union (total threads : ℕ) (hth : 1 ≤ threads)
    (hts : threads ≤ total) (x : ℤ) :
    (0 ≤ x ∧ x ≤ (total : ℤ) - 1) ↔
      ∃ r ∈ segment_ranges total threads, r.1 ≤ x ∧ x ≤ r.2 := by
  have hps1 : 1 ≤ total / threads := (Nat.one_le_div_iff (by omega)).mpr hts
  have hmulN : threads * (total / threads) ≤ total := by
    rw [Nat.mul_comm]; exact Nat.div_mul_le_self total threads
  have hpsZ : (1 : ℤ) ≤ ((total / threads : ℕ) : ℤ) := by exact_mod_cast hps1
  have hmulZ : (threads : ℤ) * ((total / threads : ℕ) : ℤ) ≤ (total : ℤ) := by
    exact_mod_cast hmulN
  rw [segment_ranges_eq_map total threads hth hts]
  constructor
  · rintro ⟨hx0, hx1⟩
    obtain ⟨xn, rfl⟩ : ∃ xn : ℕ, x = (xn : ℤ) := ⟨x.toNat, (Int.toNat_of_nonneg hx0).symm⟩
    by_cases hcase : xn / (total / threads) < threads - 1
    · refine ⟨_, List.mem_map_of_mem _
        (List.mem_range.mpr (by omega : xn / (total / threads) < threads)), ?_, ?_⟩
      · show ((xn / (total / threads) : ℕ) : ℤ) * ((total / threads : ℕ) : ℤ) ≤ (xn : ℤ)
        have hN : (xn / (total / threads)) * (total / threads) ≤ xn :=
          Nat.div_mul_le_self xn (total / threads)
        exact_mod_cast hN
      · show (xn : ℤ) ≤ (if xn / (total / threads) < threads - 1
            then (((xn / (total / threads) : ℕ) : ℤ) + 1) * ((total / threads : ℕ) : ℤ) - 1
            else (total : ℤ) - 1)
        rw [if_pos hcase]
        have hdm : xn / (total / threads) * (total / threads) + xn % (total / threads) = xn :=
          Nat.div_add_mod' xn (total / threads)
        have hmod : xn % (total / threads) < total / threads := Nat.mod_lt xn (by omega)
        have hN : xn < (xn / (total / threads) + 1) * (total / threads) := by
          have hexp : (xn / (total / threads) + 1) * (total / threads)
              = xn / (total / threads) * (total / threads) + total / threads := by ring
          rw [hexp]
          linarith
        have hZ : (xn : ℤ) < (((xn / (total / threads) : ℕ) : ℤ) + 1)
            * ((total / threads : ℕ) : ℤ) := by exact_mod_cast hN
        linarith
    · refine ⟨_, List.mem_map_of_mem _
        (List.mem_range.mpr (by omega : threads - 1 < threads)), ?_, ?_⟩
      · show ((threads - 1 : ℕ) : ℤ) * ((total / threads : ℕ) : ℤ) ≤ (xn : ℤ)
        have h1 : (threads - 1) * (total / threads)
            ≤ (xn / (total / threads)) * (total / threads) :=
          mul_le_mul_right' (by omega) (total / threads)
        have h2 : (xn / (total / threads)) * (total / threads) ≤ xn :=
          Nat.div_mul_le_self xn (total / threads)
        exact_mod_cast le_trans h1 h2
      · show (xn : ℤ) ≤ (if threads - 1 < threads - 1
            then (((threads - 1 : ℕ) : ℤ) + 1) * ((total / threads : ℕ) : ℤ) - 1
            else (total : ℤ) - 1)
        rw [if_neg (by omega : ¬threads - 1 < threads - 1)]
        exact hx1
  · rintro ⟨r, hr, hr1, hr2⟩
    obtain ⟨i, hir, rfl⟩ := List.mem_map.mp hr
    have hi := List.mem_range.mp hir
    have hr1a : (i : ℤ) * ((total / threads : ℕ) : ℤ) ≤ x := hr1
    have hr2a : x ≤ (if i < threads - 1
        then ((i : ℤ) + 1) * ((total / threads : ℕ) : ℤ) - 1
        else (total : ℤ) - 1) := hr2
    constructor
    · have hnn : (0 : ℤ) ≤ (i : ℤ) * ((total / threads : ℕ) : ℤ) :=
        mul_nonneg (Int.natCast_nonneg i) (by linarith)
      linarith
    · by_cases hlt : i < threads - 1
      · rw [if_pos hlt] at hr2a
        have hiZ : ((i : ℤ) + 1) ≤ (threads : ℤ) := by exact_mod_cast hi
        have hmm : ((i : ℤ) + 1) * ((total / threads : ℕ) : ℤ)
            ≤ (threads : ℤ) * ((total / threads : ℕ) : ℤ) :=
          mul_le_mul_of_nonneg_right hiZ (by linarith)
        linarith
      · rw [if_neg hlt] at hr2a
        exact hr2a


end MDownload

/-- C8 (amended): when segmented download is chosen and additionally
threads ≤ S (equivalently part_size ≥ 1), the loop spawns exactly N=threads
byte ranges: each is nonempty and lies within [0, S-1], the first starts at
0, consecutive ranges are contiguous, the last ends at S-1 (absorbing the
remainder when N does not divide S), the ranges are pairwise disjoint, and
their union is exactly [0, S-1].  When threads > S the loop instead skips
every empty segment and spawns a single range (see the counterexample). -/
theorem C8_amended_segmentation (total threads : ℕ)
    (hchosen : MDownload.segmented_chosen total threads) (hts : threads ≤ total) :
    (MDownload.segment_ranges total threads).length = threads ∧
    (∀ r ∈ MDownload.segment_ranges total threads,
        0 ≤ r.1 ∧ r.1 ≤ r.2 ∧ r.2 ≤ (total : ℤ) - 1) ∧
    (MDownload.segment_ranges total threads).head?.map Prod.fst = some 0 ∧
    List.Chain' (fun a b => b.1 = a.2 + 1) (MDownload.segment_ranges total threads) ∧
    (MDownload.segment_ranges total threads).getLast?.map Prod.snd
        = some ((total : ℤ) - 1) ∧
    List.Pairwise (fun a b => a.2 < b.1) (MDownload.segment_ranges total threads) ∧
    (∀ x : ℤ, (0 ≤ x ∧ x ≤ (total : ℤ) - 1) ↔
        ∃ r ∈ MDownload.segment_ranges total threads, r.1 ≤ x ∧ x ≤ r.2) := by
  have hth : 1 ≤ threads := by
    rcases hchosen with ⟨h1, h2⟩
    omega
  exact ⟨MDownload.segment_ranges_length total threads hth hts,
    MDownload.segment_ranges_bounds total threads hth hts,
    MDownload.segment_ranges_head total threads hth hts,
    MDownload.segment_ranges_chain total threads hth hts,
    MDownload.segment_ranges_last total threads hth hts,
    MDownload.segment_ranges_pairwise total threads hth hts,
    MDownload.segment_ranges_union total threads hth hts⟩

/-- Witness for the amended C8: a 2 MiB file split across 4 threads. -/
theorem C8_amended_segmentation_witness :
    MDownload.segmented_chosen 2097152 4 ∧ 4 ≤ 2097152 ∧
    (MDownload.segment_ranges 2097152 4).length = 4 :=
  ⟨⟨by norm_num, by norm_num⟩, by norm_num,
    (C8_amended_segmentation 2097152 4 ⟨by norm_num, by norm_num⟩ (by norm_num)).1⟩
